import Mathlib

/-!
Verification of the AuroraChat reference implementation (server `server.py`,
client `client.py`, crypto helpers `crypto_utils.py`) against its
natural-language specification.

The Python code is shallowly embedded: each event handler becomes a pure
function from a state and a request to a new state together with the list of
outbound events it emits.  Python dictionaries (insertion-ordered, unique
keys) are modelled as association lists with update-in-place semantics;
byte strings are lists of naturals; the AES/RSA/SHA-256 library primitives
(external to the repository) are abstracted as function parameters.
-/

namespace AuroraChat

/-- Raw bytes, as handed around by the file-transfer code. -/
abbrev Bytes := List Nat

/-- Abstracted SHA-256 hex digest values. -/
abbrev Digest := List Nat

/-- Python's `str.strip()` with no argument: remove leading and trailing
whitespace.  Defined by structural recursion over the character list so that
concrete instances reduce inside the kernel. -/
def py_strip (s : String) : String :=
  ⟨((s.data.dropWhile Char.isWhitespace).reverse.dropWhile Char.isWhitespace).reverse⟩

/-- Python's slice `s[:n]` on a string. -/
def py_take (s : String) (n : Nat) : String :=
  ⟨s.data.take n⟩

/-- `m.get(k)` on a Python dict modelled as an association list:
the first entry whose key matches. -/
def alistGet {α β : Type} [BEq α] (m : List (α × β)) (k : α) : Option β :=
  (m.find? (fun p => p.1 == k)).map (·.2)

/-- `m.get(k, d)` on a Python dict. -/
def alistGetD {α β : Type} [BEq α] (m : List (α × β)) (k : α) (d : β) : β :=
  (alistGet m k).getD d

/-- `m[k] = v` on a Python dict: update in place if the key is present,
otherwise append at the end (dicts preserve insertion order). -/
def alistSet {α β : Type} [BEq α] (m : List (α × β)) (k : α) (v : β) : List (α × β) :=
  if m.any (fun p => p.1 == k) then
    m.map (fun p => if p.1 == k then (k, v) else p)
  else
    m ++ [(k, v)]

/-! ## Server data model (`server.py`) -/

def MAX_PUBLIC_HISTORY : Nat := 200

def MAX_FILE_BYTES : Nat := 5 * 1024 * 1024

/-- A sanitized file payload, as produced by `_sanitize_file_payload`. -/
structure FilePayload where
  name : String
  mime : String
  size : Int
  data : String
deriving Repr, DecidableEq

/-- The raw `file` field of an incoming request before sanitization
(`data.get("file")`).  A missing or non-dict field is `none`; a present dict
carries a name, a mime type, a declared size and an optional base64 `data`
string (a non-string `data` value is modelled as `none`, a non-int size as
its coerced value). -/
structure RawFile where
  name : String
  mime : String
  size : Int
  data : Option String
deriving Repr, DecidableEq

/-- `_sanitize_file_payload` (server.py lines 14-44): validate and clamp an
incoming file payload. -/
def sanitize_file_payload : Option RawFile → Option FilePayload
  | none => none
  | some f =>
    match f.data with
    | none => none
    | some b64_data =>
      if b64_data = "" then none
      else if f.size > (MAX_FILE_BYTES : Int) then none
      else if b64_data.length > (MAX_FILE_BYTES * 4) / 3 + 8 then none
      else some { name := py_take f.name 255, mime := py_take f.mime 255,
                  size := f.size, data := b64_data }

/-- A public broadcast message, as built by the `message` handler and stored
in the public history. -/
structure BroadcastMsg where
  username : String
  message : String
  timestamp : Option Int
  file : Option FilePayload
deriving Repr, DecidableEq

/-- The per-message record stored in `self.private_messages`. -/
structure PMRecord where
  sender_sid : String
  recipient_sid : String
  status : String
deriving Repr, DecidableEq

/-- The payload of a `private_message_received` / `private_message_sent`
outbound event. -/
structure PMPayload where
  sender : String
  recipient : String
  message : String
  timestamp : Option Int
  message_id : Nat
  status : String
  file : Option FilePayload
deriving Repr, DecidableEq

/-- Outbound events emitted by the server handlers.  `to=`-targeted emissions carry the destination sid in `target`; `updateUserList` and `broadcastMessage` go to all
connected clients. -/
inductive OutEvent where
  | error (target : String) (message : String)
  | updateUserList (users : List String)
  | chatHistory (target : String) (messages : List BroadcastMsg)
  | broadcastMessage (payload : BroadcastMsg)
  | privateMessageReceived (target : String) (payload : PMPayload)
  | privateMessageSent (target : String) (payload : PMPayload)
  | privateMessageRead (target : String) (message_id : Nat)
deriving Repr, DecidableEq

/-- The mutable server state (`ChatServer.__init__`): the sid → username
dict, the public history list, the private-message counter and the
private-message table. -/
structure ServerState where
  clients : List (String × String)
  publicHistory : List BroadcastMsg
  privateMessageCounter : Nat
  privateMessages : List (Nat × PMRecord)
deriving Repr, DecidableEq

/-- `register` handler (server.py lines 100-137).  The `username` argument is
`data.get("username")`; a missing or non-string value is `none`. -/
def register (s : ServerState) (sid : String) (username : Option String) :
    ServerState × List OutEvent :=
  match username with
  | none => (s, [OutEvent.error sid "A valid username is required."])
  | some u =>
    if py_strip u = "" then
      (s, [OutEvent.error sid "A valid username is required."])
    else
      let uname := py_strip u
      if s.clients.any (fun p => p.2 == uname) then
        (s, [OutEvent.error sid ("Username '" ++ uname ++ "' is already taken.")])
      else
        let clients := alistSet s.clients sid uname
        let users_snapshot := clients.map (·.2)
        let history_snapshot := s.publicHistory
        ({ s with clients := clients },
         OutEvent.updateUserList users_snapshot ::
           (if history_snapshot = [] then [] else [OutEvent.chatHistory sid history_snapshot]))

/-- Append a broadcast message to the public history and evict the oldest
entry once the bound is exceeded (server.py lines 174-177). -/
def pushHistory (h : List BroadcastMsg) (b : BroadcastMsg) : List BroadcastMsg :=
  let h2 := h ++ [b]
  if MAX_PUBLIC_HISTORY < h2.length then h2.drop 1 else h2

/-- An incoming `message` request: optional text, optional raw file payload,
optional timestamp. -/
structure MsgRequest where
  message : Option String
  file : Option RawFile
  timestamp : Option Int
deriving Repr, DecidableEq

/-- The broadcast payload the `message` handler builds for a request. -/
def mkBroadcast (clients : List (String × String)) (sid : String) (d : MsgRequest) :
    BroadcastMsg :=
  { username := alistGetD clients sid "Unknown",
    message := py_strip (d.message.getD ""),
    timestamp := d.timestamp,
    file := sanitize_file_payload d.file }

/-- `message` handler (server.py lines 139-180): broadcast a public message
and append it to the bounded history.  An empty payload is ignored.  (The
`if data:` guard in the source is always true once the payload check passed,
since a request with text or a file is a non-empty dict.) -/
def message (s : ServerState) (sid : String) (d : MsgRequest) :
    ServerState × List OutEvent :=
  let message_text := py_strip (d.message.getD "")
  let file_payload := sanitize_file_payload d.file
  if message_text = "" ∧ file_payload = none then
    (s, [])
  else
    let broadcast_data := mkBroadcast s.clients sid d
    ({ s with publicHistory := pushHistory s.publicHistory broadcast_data },
     [OutEvent.broadcastMessage broadcast_data])

/-- An incoming `private_message` request. -/
structure PMRequest where
  recipient : Option String
  message : Option String
  file : Option RawFile
  timestamp : Option Int
deriving Repr, DecidableEq

/-- Linear scan for the sid registered under a username
(server.py lines 237-241): first match in insertion order. -/
def lookupSidByName (clients : List (String × String)) (name : String) : Option String :=
  (clients.find? (fun p => p.2 == name)).map (·.1)

/-- `private_message` handler (server.py lines 183-302).  Note two source
facts embedded faithfully: the recipient name is used raw (it is only
trimmed inside the validity check, never reassigned), and the success path
is guarded by `if recipient_username and message:` which requires non-empty
*text*, so a file-only request falls through to the invalid-format error. -/
def private_message (s : ServerState) (sid : String) (d : PMRequest) :
    ServerState × List OutEvent :=
  let sender_username := alistGetD s.clients sid "Unknown"
  let recipient_username := d.recipient.getD ""
  let file_payload := sanitize_file_payload d.file
  if py_strip recipient_username = "" then
    (s, [OutEvent.error sid "A valid recipient is required."])
  else
    let msg := py_strip (d.message.getD "")
    if msg = "" ∧ file_payload = none then
      (s, [OutEvent.error sid "Cannot send an empty message. Attach a file or include text."])
    else if sender_username = recipient_username then
      (s, [OutEvent.error sid "You cannot send a private message to yourself."])
    else if recipient_username ≠ "" ∧ msg ≠ "" then
      match lookupSidByName s.clients recipient_username with
      | some recipient_sid =>
        let message_id := s.privateMessageCounter + 1
        let record : PMRecord :=
          { sender_sid := sid, recipient_sid := recipient_sid, status := "sent" }
        let payload : PMPayload :=
          { sender := sender_username, recipient := recipient_username, message := msg,
            timestamp := d.timestamp, message_id := message_id, status := "", file := none }
        let recipient_payload := { payload with status := "delivered", file := file_payload }
        let sender_payload := { payload with status := "sent", file := file_payload }
        ({ s with privateMessageCounter := message_id,
                  privateMessages := s.privateMessages ++ [(message_id, record)] },
         [OutEvent.privateMessageReceived recipient_sid recipient_payload,
          OutEvent.privateMessageSent sid sender_payload])
      | none =>
        (s, [OutEvent.error sid ("User '" ++ recipient_username ++ "' not found or offline.")])
    else
      (s, [OutEvent.error sid "Invalid private message format. Please specify recipient and message."])

/-- One iteration of the loop in `private_message_read`
(server.py lines 365-384): thread the private-message table and the
acknowledgement list through one requested id. -/
def ackStep (sid : String) (acc : List (Nat × PMRecord) × List (String × Nat))
    (message_id : Nat) : List (Nat × PMRecord) × List (String × Nat) :=
  match alistGet acc.1 message_id with
  | none => acc
  | some meta =>
    if meta.recipient_sid ≠ sid then acc
    else if meta.status = "seen" then acc
    else (alistSet acc.1 message_id { meta with status := "seen" },
          acc.2 ++ [(meta.sender_sid, message_id)])

/-- `private_message_read` handler (server.py lines 353-392).  Requested ids
are modelled as naturals (entries failing `int()` coercion are skipped by the
source and omitted here); after the loop, one read receipt is emitted to each
recorded sender with a truthy (non-empty) sid. -/
def private_message_read (s : ServerState) (sid : String) (message_ids : List Nat) :
    ServerState × List OutEvent :=
  let result := message_ids.foldl (ackStep sid) (s.privateMessages, [])
  ({ s with privateMessages := result.1 },
   result.2.filterMap (fun a =>
     if a.1 = "" then none else some (OutEvent.privateMessageRead a.1 a.2)))

/-- `request_history` handler (server.py lines 304-308): reply with a
snapshot of the public history. -/
def request_history (s : ServerState) (sid : String) : ServerState × List OutEvent :=
  (s, [OutEvent.chatHistory sid s.publicHistory])

/-- Run a sequence of `message` requests against the server, keeping the
final state. -/
def runMessages (s : ServerState) (reqs : List (String × MsgRequest)) : ServerState :=
  reqs.foldl (fun st p => (message st p.1 p.2).1) s

/-- Run a sequence of `private_message_read` calls, collecting every event
emitted along the way. -/
def runAcks (s : ServerState) (calls : List (String × List Nat)) :
    ServerState × List OutEvent :=
  calls.foldl
    (fun acc c =>
      ((private_message_read acc.1 c.1 c.2).1,
       acc.2 ++ (private_message_read acc.1 c.1 c.2).2))
    (s, [])

/-- Is this event a read receipt for the given message id? -/
def isReadReceiptFor (mid : Nat) : OutEvent → Bool
  | OutEvent.privateMessageRead _ m => m == mid
  | _ => false

/-- The read-receipt events for a given message id within an event list. -/
def receiptsFor (evs : List OutEvent) (mid : Nat) : List OutEvent :=
  evs.filter (isReadReceiptFor mid)

/-- How many read receipts for the given message id an event list carries. -/
def countReceipts (evs : List OutEvent) (mid : Nat) : Nat :=
  (receiptsFor evs mid).length

/-- The acknowledgement-list entries recorded for a given message id. -/
def acksFor (acks : List (String × Nat)) (mid : Nat) : List (String × Nat) :=
  acks.filter (fun a => a.2 == mid)

/-- The stored delivery status of a private message, if the id is known. -/
def statusOf (s : ServerState) (mid : Nat) : Option String :=
  (alistGet s.privateMessages mid).map (·.status)

/-- 1 while a message id can still produce a read receipt, 0 once it is
seen; the bookkeeping measure behind the at-most-one-receipt argument. -/
def seenPotential (s : ServerState) (mid : Nat) : Nat :=
  if statusOf s mid = some "seen" then 0 else 1

/-! ## Client outbound queue (`client.py`) -/

/-- Payload of an event queued by the client.  The synthetic registration
carries the desired username; all other payloads are opaque to the queue and
modelled by a tag. -/
inductive EvData where
  | registerData (username : String)
  | plain (tag : Nat)
deriving Repr, DecidableEq

/-- The part of `ChatClient` state that drives the outbound queue. -/
structure ClientState where
  connected : Bool
  connecting : Bool
  desired_username : String
  pending_events : List (String × EvData)
deriving Repr, DecidableEq

/-- `_emit_when_connected` (client.py lines 294-307): send immediately when
connected, otherwise append to the pending buffer.  Returns the new state and
the events sent on the wire by this call. -/
def emit_when_connected (s : ClientState) (event : String) (data : EvData) :
    ClientState × List (String × EvData) :=
  if s.connected then (s, [(event, data)])
  else ({ s with pending_events := s.pending_events ++ [(event, data)] }, [])

/-- Emit a whole list of actions through `_emit_when_connected`, collecting
everything sent on the wire. -/
def emitAll (s : ClientState) (actions : List (String × EvData)) :
    ClientState × List (String × EvData) :=
  actions.foldl
    (fun acc a =>
      let r := emit_when_connected acc.1 a.1 a.2
      (r.1, acc.2 ++ r.2))
    (s, [])

/-- The `connect` handler (client.py lines 70-88): mark connected, snapshot
and clear the buffer, prepend a synthetic `register` action when a desired
username is pending and none is queued, then send everything in order.
Returns the new state and the flushed events in emission order. -/
def on_connect (s : ClientState) : ClientState × List (String × EvData) :=
  let queued_register := s.pending_events.any (fun e => e.1 == "register")
  let pending := s.pending_events
  let pending :=
    if s.desired_username ≠ "" ∧ ¬queued_register then
      ("register", EvData.registerData s.desired_username) :: pending
    else pending
  ({ s with connected := true, connecting := false, pending_events := [] }, pending)

/-! ## Client file-chunk reception (`client.py`) -/

/-- The metadata dict built by `FileChunker.create_chunk_metadata`
(crypto_utils.py lines 155-164) and carried on chunk 0. -/
structure ChunkMetadata where
  filename : String
  total_size : Nat
  total_chunks : Nat
  file_hash : Digest
  chunk_size : Nat
deriving Repr, DecidableEq

/-- An incoming `file_chunk` event on the client.  `chunk_data` is kept in
decoded form (the base64 transport encoding is inverse-decoded on receipt
and is external to the logic verified here); a missing metadata field is
`none`. -/
structure FileChunkMsg where
  transfer_id : String
  chunk_index : Nat
  chunk_data : Bytes
  is_last_chunk : Bool
  metadata : Option ChunkMetadata
deriving Repr, DecidableEq

/-- The client-side transfer bookkeeping: `_active_transfers` (metadata per
transfer id) and `_received_chunks` (index-keyed chunk buffer per transfer
id). -/
structure TransferState where
  active_transfers : List (String × ChunkMetadata)
  received_chunks : List (String × List (Nat × Bytes))
deriving Repr, DecidableEq

/-- Observable effects of the client-side chunk handler. -/
inductive ClientEffect where
  | errorMsg (message : String)
  | progress (transfer_id : String) (received : Nat) (expected : Nat)
  | reassemble (transfer_id : String)
deriving Repr, DecidableEq

/-- `on_file_chunk` (client.py lines 222-255): store the chunk, remember the
metadata arriving with chunk 0, report progress, and trigger reassembly when
the stored-chunk count reaches the expected count.  Faithful source detail:
`expected_chunks` is read from the *incoming* chunk's metadata field
(`metadata.get("total_chunks", 0) if metadata else 0`), not from the stored
`_active_transfers` entry. -/
def on_file_chunk (s : TransferState) (c : FileChunkMsg) :
    TransferState × List ClientEffect :=
  if c.transfer_id = "" ∨ c.chunk_data = [] then
    (s, [ClientEffect.errorMsg "Invalid file chunk received"])
  else
    let chunksForTransfer := (alistGet s.received_chunks c.transfer_id).getD []
    let chunksForTransfer := alistSet chunksForTransfer c.chunk_index c.chunk_data
    let received_chunks := alistSet s.received_chunks c.transfer_id chunksForTransfer
    let active_transfers :=
      match c.metadata with
      | some m =>
        if c.chunk_index = 0 then alistSet s.active_transfers c.transfer_id m
        else s.active_transfers
      | none => s.active_transfers
    let expected_chunks := (c.metadata.map (·.total_chunks)).getD 0
    let received_count := chunksForTransfer.length
    let effects := [ClientEffect.progress c.transfer_id received_count expected_chunks]
    let effects :=
      if expected_chunks ≤ received_count ∧ 0 < expected_chunks then
        effects ++ [ClientEffect.reassemble c.transfer_id]
      else effects
    ({ active_transfers := active_transfers, received_chunks := received_chunks }, effects)

/-! ## File transfer codec (`crypto_utils.py`)

The AES-256-CBC block cipher, the RSA-OAEP key wrap and the SHA-256 digest
are library primitives external to the repository; they enter the model as
the fields of `CryptoPrims`.  Everything the repository itself computes
(PKCS7 padding, chunk splitting, reassembly, digest comparison) is embedded
directly. -/

structure CryptoPrims where
  aesEnc : Bytes → Bytes → Bytes → Bytes
  aesDec : Bytes → Bytes → Bytes → Bytes
  rsaWrapKey : Bytes → Bytes
  rsaUnwrapKey : Bytes → Bytes
  sha256_hexdigest : Bytes → Digest

/-- `CryptoManager._pad_data` (crypto_utils.py lines 125-129): PKCS7. -/
def pad_data (data : Bytes) (block_size : Nat) : Bytes :=
  let padding_length := block_size - data.length % block_size
  data ++ List.replicate padding_length padding_length

/-- `CryptoManager._unpad_data` (crypto_utils.py lines 131-134): drop as many
trailing bytes as the last byte says.  Python's `padded[:-n]` yields `[]` for
`n = 0` (and for `n ≥ len`), hence the case split; the source raises on an
empty input, which is unreachable from the call sites modelled here. -/
def unpad_data (padded_data : Bytes) : Bytes :=
  let padding_length := (padded_data.getLast?).getD 0
  if padding_length = 0 then []
  else padded_data.take (padded_data.length - padding_length)

/-- `CryptoManager.encrypt_data` (crypto_utils.py lines 89-108) with the
random IV supplied as an argument: pad to the 16-byte boundary, then AES
encrypt. -/
def encrypt_data (p : CryptoPrims) (data : Bytes) (aes_key : Bytes) (iv : Bytes) :
    Bytes × Bytes :=
  (p.aesEnc aes_key iv (pad_data data 16), iv)

/-- `CryptoManager.decrypt_data` (crypto_utils.py lines 110-123): AES decrypt
then remove the padding. -/
def decrypt_data (p : CryptoPrims) (encrypted_data : Bytes) (aes_key : Bytes)
    (iv : Bytes) : Bytes :=
  unpad_data (p.aesDec aes_key iv encrypted_data)

/-- `FileChunker.chunk_file` (crypto_utils.py lines 147-153): split into
`chunk_size`-byte slices.  A zero `chunk_size` raises in the source
(`range` with step 0); the model returns `[]` there and every claim about
chunking assumes `1 ≤ chunk_size`. -/
def chunk_file (chunk_size : Nat) (data : Bytes) : List Bytes :=
  if h : chunk_size = 0 ∨ data = [] then []
  else
    data.take chunk_size :: chunk_file chunk_size (data.drop chunk_size)
termination_by data.length
decreasing_by
  rcases not_or.mp h with ⟨h1, h2⟩
  have hd : 0 < data.length := List.length_pos.mpr h2
  have hc : 0 < chunk_size := Nat.pos_of_ne_zero h1
  simpa [List.length_drop] using Nat.sub_lt hd hc

/-- `FileChunker.create_chunk_metadata` (crypto_utils.py lines 155-164). -/
def create_chunk_metadata (chunk_size : Nat) (filename : String)
    (total_size total_chunks : Nat) (file_hash : Digest) : ChunkMetadata :=
  { filename := filename, total_size := total_size, total_chunks := total_chunks,
    file_hash := file_hash, chunk_size := chunk_size }

/-- The dict returned by `prepare_file_for_sending`. -/
structure TransferData where
  transfer_id : String
  metadata : ChunkMetadata
  encrypted_aes_key : Bytes
  iv : Bytes
  chunks : List Bytes
  total_chunks : Nat
deriving Repr, DecidableEq

/-- `EncryptedFileTransfer.prepare_file_for_sending` (crypto_utils.py lines
175-204), with the randomly generated AES key and IV and the transfer id
supplied as arguments: hash the plaintext, encrypt it padded, wrap the AES
key, chunk the ciphertext and assemble the metadata. -/
def prepare_file_for_sending (p : CryptoPrims) (chunk_size : Nat)
    (aes_key iv : Bytes) (transfer_id : String) (file_data : Bytes)
    (filename : String) : TransferData :=
  let file_hash := p.sha256_hexdigest file_data
  let encrypted_data := (encrypt_data p file_data aes_key iv).1
  let encrypted_aes_key := p.rsaWrapKey aes_key
  let chunks := chunk_file chunk_size encrypted_data
  let metadata := create_chunk_metadata chunk_size filename file_data.length
    chunks.length file_hash
  { transfer_id := transfer_id, metadata := metadata,
    encrypted_aes_key := encrypted_aes_key, iv := iv, chunks := chunks,
    total_chunks := chunks.length }

/-- `EncryptedFileTransfer.reassemble_file` (crypto_utils.py lines 217-239):
unwrap the AES key, concatenate the chunks in the given order, decrypt,
unpad, recompute the digest and compare it with the expected one; a mismatch
raises (modelled as `Except.error` carrying the source's message, never the
plaintext). -/
def reassemble_file (p : CryptoPrims) (chunks_data : List Bytes)
    (encrypted_aes_key : Bytes) (iv : Bytes) (expected_hash : Digest) :
    Except String (Bytes × Digest) :=
  let aes_key := p.rsaUnwrapKey encrypted_aes_key
  let encrypted_data := chunks_data.flatten
  let decrypted_data := decrypt_data p encrypted_data aes_key iv
  let actual_hash := p.sha256_hexdigest decrypted_data
  if actual_hash = expected_hash then Except.ok (decrypted_data, actual_hash)
  else Except.error "File hash verification failed - file may be corrupted"

/-- A trivial concrete instantiation of the external primitives (identity
cipher and wrap, identity digest), used to evaluate the conditional theorems
at concrete inputs. -/
def idPrims : CryptoPrims :=
  { aesEnc := fun _ _ x => x, aesDec := fun _ _ x => x,
    rsaWrapKey := fun k => k, rsaUnwrapKey := fun k => k,
    sha256_hexdigest := fun b => b }

/-! ## Helper lemmas on the association-list dictionary model -/

theorem find?_setMap_self {α β : Type} [BEq α] [LawfulBEq α]
    (m : List (α × β)) (k : α) (v : β) (hany : m.any (fun p => p.1 == k) = true) :
    (m.map (fun p => if p.1 == k then (k, v) else p)).find? (fun p => p.1 == k)
      = some (k, v) := by
  induction m with
  | nil => simp at hany
  | cons q t ih =>
    by_cases hq : (q.1 == k) = true
    · simp [hq, List.find?_cons_of_pos]
    · have hq' : (q.1 == k) = false := by simpa using hq
      have htany : t.any (fun p => p.1 == k) = true := by
        simpa [List.any_cons, hq'] using hany
      simpa [hq', List.find?_cons_of_neg] using ih htany

theorem find?_appendSingle_self {α β : Type} [BEq α] [LawfulBEq α]
    (m : List (α × β)) (k : α) (v : β) (hany : m.any (fun p => p.1 == k) = false) :
    (m ++ [(k, v)]).find? (fun p => p.1 == k) = some (k, v) := by
  induction m with
  | nil => simp
  | cons q t ih =>
    have hq : (q.1 == k) = false := by
      have := List.any_eq_false.mp hany q (by simp)
      simpa using this
    have htany : t.any (fun p => p.1 == k) = false := by
      apply List.any_eq_false.mpr
      intro p hp
      exact List.any_eq_false.mp hany p (by simp [hp])
    simpa [hq, List.find?_cons_of_neg] using ih htany

theorem find?_setMap_ne {α β : Type} [BEq α] [LawfulBEq α]
    (m : List (α × β)) (k k' : α) (v : β) (hkk : (k == k') = false) :
    (m.map (fun p => if p.1 == k then (k, v) else p)).find? (fun p => p.1 == k')
      = m.find? (fun p => p.1 == k') := by
  induction m with
  | nil => simp
  | cons q t ih =>
    by_cases hq : (q.1 == k) = true
    · have hqk : q.1 = k := eq_of_beq hq
      have hqk' : (q.1 == k') = false := by simpa [hqk] using hkk
      simp [hq, hqk', hkk, List.find?_cons_of_neg, ih]
    · have hq' : (q.1 == k) = false := by simpa using hq
      by_cases hm : (q.1 == k') = true
      · simp [hq', hm, List.find?_cons_of_pos]
      · have hm' : (q.1 == k') = false := by simpa using hm
        simp [hq', hm', List.find?_cons_of_neg, ih]

theorem find?_appendSingle_ne {α β : Type} [BEq α] [LawfulBEq α]
    (m : List (α × β)) (k k' : α) (v : β) (hkk : (k == k') = false) :
    (m ++ [(k, v)]).find? (fun p => p.1 == k') = m.find? (fun p => p.1 == k') := by
  induction m with
  | nil => simp [List.find?, hkk]
  | cons q t ih =>
    by_cases hm : (q.1 == k') = true
    · simp [hm, List.find?_cons_of_pos]
    · have hm' : (q.1 == k') = false := by simpa using hm
      simp [hm', List.find?_cons_of_neg, ih]

theorem alistGet_alistSet_self {α β : Type} [BEq α] [LawfulBEq α]
    (m : List (α × β)) (k : α) (v : β) :
    alistGet (alistSet m k v) k = some v := by
  unfold alistSet
  split
  case isTrue hany => simp [alistGet, find?_setMap_self m k v hany]
  case isFalse hany =>
    have hf : m.any (fun p => p.1 == k) = false := by
      simp only [Bool.not_eq_true] at hany; exact hany
    simp [alistGet, find?_appendSingle_self m k v hf]

theorem alistGet_alistSet_ne {α β : Type} [BEq α] [LawfulBEq α]
    (m : List (α × β)) (k k' : α) (v : β) (h : k' ≠ k) :
    alistGet (alistSet m k v) k' = alistGet m k' := by
  have hkk : (k == k') = false := by
    simp only [beq_eq_false_iff_ne, ne_eq]
    exact fun e => h e.symm
  unfold alistSet
  split
  case isTrue hany => simp [alistGet, find?_setMap_ne m k k' v hkk]
  case isFalse hany => simp [alistGet, find?_appendSingle_ne m k k' v hkk]

theorem alistSet_mem {α β : Type} [BEq α] [LawfulBEq α]
    {m : List (α × β)} {k : α} {v : β} :
    ∀ p ∈ alistSet m k v, p = (k, v) ∨ (p ∈ m ∧ p.1 ≠ k) := by
  intro p hp
  unfold alistSet at hp
  split at hp
  case isTrue hany =>
    rcases List.mem_map.mp hp with ⟨q, hq, hfq⟩
    by_cases hqk : (q.1 == k) = true
    · left; simp [hqk] at hfq; exact hfq.symm
    · right
      have hqk' : (q.1 == k) = false := by simpa using hqk
      simp [hqk'] at hfq
      subst hfq
      exact ⟨hq, by simpa using hqk'⟩
  case isFalse hany =>
    rcases List.mem_append.mp hp with hm | hs
    · right
      refine ⟨hm, ?_⟩
      have hf : m.any (fun p => p.1 == k) = false := by
        simp only [Bool.not_eq_true] at hany; exact hany
      have := List.any_eq_false.mp hf p hm
      simpa using this
    · left; simpa using hs

theorem alistGet_append_fresh {α β : Type} [BEq α] [LawfulBEq α]
    (t : List (α × β)) (k : α) (v : β) (h : ∀ p ∈ t, p.1 ≠ k) :
    alistGet (t ++ [(k, v)]) k = some v := by
  have hf : t.any (fun p => p.1 == k) = false := by
    apply List.any_eq_false.mpr
    intro p hp
    simpa using h p hp
  simp [alistGet, find?_appendSingle_self t k v hf]

/-! ## Claim C1 — file-only private messages -/

/-- Claim C1.  The claim says a private message carrying a valid file payload
but no text, addressed to an online recipient distinct from the sender, is
routed.  Evaluating `private_message` at exactly such a request shows the
code instead answers with the invalid-format error and mutates nothing: the
success path is gated on non-empty *text* (`if recipient_username and
message:`), while the payload is demonstrably a valid file-only one (the
sanitizer accepts it, the text is blank, the recipient resolves to an online
sid distinct from the sender). -/
theorem c1_file_only_private_message_rejected :
    private_message ⟨[("s1", "alice"), ("s2", "bob")], [], 0, []⟩ "s1"
        { recipient := some "bob", message := none,
          file := some ⟨"f.bin", "application/octet-stream", 3, some "AAAA"⟩,
          timestamp := none } =
      (⟨[("s1", "alice"), ("s2", "bob")], [], 0, []⟩,
       [OutEvent.error "s1"
          "Invalid private message format. Please specify recipient and message."]) ∧
    (sanitize_file_payload
        (some ⟨"f.bin", "application/octet-stream", 3, some "AAAA"⟩)).isSome = true ∧
    py_strip ((none : Option String).getD "") = "" ∧
    lookupSidByName [("s1", "alice"), ("s2", "bob")] "bob" = some "s2" ∧
    alistGetD [("s1", "alice"), ("s2", "bob")] "s1" "Unknown" ≠ "bob" := by
  decide

/-! ## Claim C2 — out-of-order chunk reassembly -/

/-- Claim C2.  The claim says reassembly triggers as soon as the stored chunk
count reaches the expected count, in particular when chunk 0 (carrying the
metadata) arrives first.  Running `on_file_chunk` on a two-chunk transfer
with chunk 0 first shows otherwise: after the second chunk the buffer holds
both chunks and the stored metadata says two are expected, yet the handler
reports progress `(2, 0)` — the expected count is read from the incoming
chunk's absent metadata — and never emits the reassembly trigger. -/
theorem c2_chunk0_first_never_reassembles :
    ((alistGet (on_file_chunk
        (on_file_chunk ⟨[], []⟩ ⟨"t1", 0, [1], false, some ⟨"f", 2, 2, [9], 1⟩⟩).1
        ⟨"t1", 1, [2], true, none⟩).1.received_chunks "t1").getD []).length = 2 ∧
    (alistGet (on_file_chunk
        (on_file_chunk ⟨[], []⟩ ⟨"t1", 0, [1], false, some ⟨"f", 2, 2, [9], 1⟩⟩).1
        ⟨"t1", 1, [2], true, none⟩).1.active_transfers "t1").map (·.total_chunks)
      = some 2 ∧
    (on_file_chunk
        (on_file_chunk ⟨[], []⟩ ⟨"t1", 0, [1], false, some ⟨"f", 2, 2, [9], 1⟩⟩).1
        ⟨"t1", 1, [2], true, none⟩).2
      = [ClientEffect.progress "t1" 2 0] := by
  decide

/-! ## Claim C3 — re-registration under a new name -/

/-- Claim C3 counterexample.  The claim says re-registering a connection
under a new unused name leaves the old name claimed (a dangling mapping, two
names for one connection).  Evaluating `register` on a connection registered
as `A` re-registering as `B` refutes this: `self.clients[sid] = username`
overwrites the dict entry, so afterwards the registry holds only `B` and `A`
is no longer claimed by anyone. -/
theorem c3_old_name_is_released :
    (register ⟨[("s1", "A")], [], 0, []⟩ "s1" (some "B")).1.clients = [("s1", "B")] ∧
    "A" ∉ ((register ⟨[("s1", "A")], [], 0, []⟩ "s1" (some "B")).1.clients.map (·.2)) := by
  decide

/-- Claim C3, amended.  If a connection registered under `oldName` calls
`register` again with a distinct, unused, valid `newName`, the call succeeds
(the updated user list is broadcast, no error event) and the old name *is*
released: the connection's entry is overwritten, it maps only to the new
trimmed name, and no live entry carries the old name any more. -/
theorem c3_reregistration_overwrites_mapping
    (s : ServerState) (sid oldName newName : String)
    (hold : alistGet s.clients sid = some oldName)
    (hvalid : py_strip newName ≠ "")
    (hunused : s.clients.any (fun p => p.2 == py_strip newName) = false)
    (hdistinct : oldName ≠ py_strip newName)
    (huniq : ∀ p ∈ s.clients, p.2 = oldName → p.1 = sid) :
    (register s sid (some newName)).1.clients = alistSet s.clients sid (py_strip newName) ∧
    (register s sid (some newName)).2 =
      OutEvent.updateUserList ((alistSet s.clients sid (py_strip newName)).map (·.2)) ::
        (if s.publicHistory = [] then []
         else [OutEvent.chatHistory sid s.publicHistory]) ∧
    alistGet (register s sid (some newName)).1.clients sid = some (py_strip newName) ∧
    (∀ p ∈ (register s sid (some newName)).1.clients, p.1 = sid → p.2 = py_strip newName) ∧
    (∀ p ∈ (register s sid (some newName)).1.clients, p.2 ≠ oldName) := by
  have hreg : register s sid (some newName) =
      ({ s with clients := alistSet s.clients sid (py_strip newName) },
       OutEvent.updateUserList ((alistSet s.clients sid (py_strip newName)).map (·.2)) ::
         (if s.publicHistory = [] then []
          else [OutEvent.chatHistory sid s.publicHistory])) := by
    simp [register, hvalid, hunused]
  refine ⟨by rw [hreg], by rw [hreg], ?_, ?_, ?_⟩
  · rw [hreg]
    exact alistGet_alistSet_self s.clients sid (py_strip newName)
  · rw [hreg]
    intro p hp hpk
    rcases alistSet_mem p hp with he | ⟨_, hne⟩
    · rw [he]
    · exact absurd hpk hne
  · rw [hreg]
    intro p hp
    rcases alistSet_mem p hp with he | ⟨hm, hne⟩
    · rw [he]; exact fun e => hdistinct e.symm
    · intro he; exact hne (huniq p hm he)

/-- Claim C3 amended, evaluated at a concrete instance: a connection holding
`A` re-registers as `B`; afterwards it maps to `B` only and `A` is free. -/
theorem c3_reregistration_overwrites_mapping_witness :
    (register ⟨[("s1", "A")], [], 0, []⟩ "s1" (some "B")).1.clients
        = alistSet [("s1", "A")] "s1" (py_strip "B") ∧
    (register ⟨[("s1", "A")], [], 0, []⟩ "s1" (some "B")).2 =
      OutEvent.updateUserList ((alistSet [("s1", "A")] "s1" (py_strip "B")).map (·.2)) ::
        (if ([] : List BroadcastMsg) = [] then []
         else [OutEvent.chatHistory "s1" ([] : List BroadcastMsg)]) ∧
    alistGet (register ⟨[("s1", "A")], [], 0, []⟩ "s1" (some "B")).1.clients "s1"
        = some (py_strip "B") ∧
    (∀ p ∈ (register ⟨[("s1", "A")], [], 0, []⟩ "s1" (some "B")).1.clients,
        p.1 = "s1" → p.2 = py_strip "B") ∧
    (∀ p ∈ (register ⟨[("s1", "A")], [], 0, []⟩ "s1" (some "B")).1.clients, p.2 ≠ "A") :=
  c3_reregistration_overwrites_mapping ⟨[("s1", "A")], [], 0, []⟩ "s1" "A" "B"
    (by decide) (by decide) (by decide) (by decide) (by decide)

/-! ## Claim C10 — public messages from unregistered connections -/

/-- The `message` handler on an accepted request: broadcast and append. -/
theorem message_accepted_eq (s : ServerState) (sid : String) (d : MsgRequest)
    (hacc : ¬(py_strip (d.message.getD "") = "" ∧ sanitize_file_payload d.file = none)) :
    message s sid d =
      ({ s with publicHistory := pushHistory s.publicHistory (mkBroadcast s.clients sid d) },
       [OutEvent.broadcastMessage (mkBroadcast s.clients sid d)]) := by
  simp [message, hacc, mkBroadcast]

/-- The broadcast just accepted is always present in the updated history. -/
theorem pushHistory_mem (h : List BroadcastMsg) (b : BroadcastMsg) :
    b ∈ pushHistory h b := by
  simp only [pushHistory]
  split
  case isTrue hlen =>
    cases h with
    | nil => simp [MAX_PUBLIC_HISTORY] at hlen
    | cons x t => simp
  case isFalse hlen => simp

/-- Claim C10.  A `message` event from a connection with no registered
username is still accepted when it carries non-blank text or a valid file:
it is broadcast to all clients under the sender name `Unknown` and appended
to the public history. -/
theorem c10_unregistered_sender_broadcasts_as_unknown
    (s : ServerState) (sid : String) (d : MsgRequest)
    (hunreg : alistGet s.clients sid = none)
    (hacc : ¬(py_strip (d.message.getD "") = "" ∧ sanitize_file_payload d.file = none)) :
    message s sid d =
      ({ s with publicHistory := pushHistory s.publicHistory (mkBroadcast s.clients sid d) },
       [OutEvent.broadcastMessage (mkBroadcast s.clients sid d)]) ∧
    (mkBroadcast s.clients sid d).username = "Unknown" ∧
    mkBroadcast s.clients sid d ∈ (message s sid d).1.publicHistory := by
  have he := message_accepted_eq s sid d hacc
  refine ⟨he, ?_, ?_⟩
  · simp [mkBroadcast, alistGetD, hunreg]
  · rw [he]
    exact pushHistory_mem s.publicHistory (mkBroadcast s.clients sid d)

/-- Claim C10, evaluated: an unregistered connection's text message is
broadcast with username `Unknown` and lands in the history. -/
theorem c10_unregistered_sender_broadcasts_as_unknown_witness :
    message ⟨[("s2", "bob")], [], 0, []⟩ "s1" ⟨some "hi", none, none⟩ =
      ({ clients := [("s2", "bob")],
         publicHistory := pushHistory []
           (mkBroadcast [("s2", "bob")] "s1" ⟨some "hi", none, none⟩),
         privateMessageCounter := 0, privateMessages := [] },
       [OutEvent.broadcastMessage
          (mkBroadcast [("s2", "bob")] "s1" ⟨some "hi", none, none⟩)]) ∧
    (mkBroadcast [("s2", "bob")] "s1" ⟨some "hi", none, none⟩).username = "Unknown" ∧
    mkBroadcast [("s2", "bob")] "s1" ⟨some "hi", none, none⟩ ∈
      (message ⟨[("s2", "bob")], [], 0, []⟩ "s1" ⟨some "hi", none, none⟩).1.publicHistory :=
  c10_unregistered_sender_broadcasts_as_unknown ⟨[("s2", "bob")], [], 0, []⟩ "s1"
    ⟨some "hi", none, none⟩ (by decide) (by decide)

/-! ## Claim C4 — successful private-message routing -/

/-- Claim C4.  On a successfully routed private message (valid non-blank
recipient that resolves to an online sid, non-empty text, sender distinct
from recipient) the server allocates the next id (1-based, fresh, keeping
ids bounded by the counter so they are never reused), stores a record with
status `sent`, and emits exactly two events: `private_message_received` to
the recipient with status `delivered` and `private_message_sent` to the
sender with status `sent`, both carrying the same id and the request's
timestamp when present. -/
theorem c4_private_message_success
    (s : ServerState) (sid : String) (d : PMRequest) (r rsid : String)
    (hrec : d.recipient = some r)
    (hrecval : py_strip r ≠ "")
    (hmsg : py_strip (d.message.getD "") ≠ "")
    (hself : alistGetD s.clients sid "Unknown" ≠ r)
    (hlookup : lookupSidByName s.clients r = some rsid)
    (hids : ∀ p ∈ s.privateMessages, p.1 ≤ s.privateMessageCounter) :
    private_message s sid d =
      ({ s with
          privateMessageCounter := s.privateMessageCounter + 1,
          privateMessages := s.privateMessages ++
            [(s.privateMessageCounter + 1, ⟨sid, rsid, "sent"⟩)] },
       [OutEvent.privateMessageReceived rsid
          { sender := alistGetD s.clients sid "Unknown", recipient := r,
            message := py_strip (d.message.getD ""), timestamp := d.timestamp,
            message_id := s.privateMessageCounter + 1, status := "delivered",
            file := sanitize_file_payload d.file },
        OutEvent.privateMessageSent sid
          { sender := alistGetD s.clients sid "Unknown", recipient := r,
            message := py_strip (d.message.getD ""), timestamp := d.timestamp,
            message_id := s.privateMessageCounter + 1, status := "sent",
            file := sanitize_file_payload d.file }]) ∧
    1 ≤ s.privateMessageCounter + 1 ∧
    alistGet (private_message s sid d).1.privateMessages (s.privateMessageCounter + 1)
      = some ⟨sid, rsid, "sent"⟩ ∧
    (∀ p ∈ s.privateMessages, p.1 ≠ s.privateMessageCounter + 1) ∧
    (∀ p ∈ (private_message s sid d).1.privateMessages,
        p.1 ≤ (private_message s sid d).1.privateMessageCounter) := by
  have hr0 : r ≠ "" := fun e => hrecval (by rw [e]; rfl)
  have hmsg' : ¬(py_strip (d.message.getD "") = "" ∧ sanitize_file_payload d.file = none) :=
    fun hc => hmsg hc.1
  have heq : private_message s sid d =
      ({ s with
          privateMessageCounter := s.privateMessageCounter + 1,
          privateMessages := s.privateMessages ++
            [(s.privateMessageCounter + 1, ⟨sid, rsid, "sent"⟩)] },
       [OutEvent.privateMessageReceived rsid
          { sender := alistGetD s.clients sid "Unknown", recipient := r,
            message := py_strip (d.message.getD ""), timestamp := d.timestamp,
            message_id := s.privateMessageCounter + 1, status := "delivered",
            file := sanitize_file_payload d.file },
        OutEvent.privateMessageSent sid
          { sender := alistGetD s.clients sid "Unknown", recipient := r,
            message := py_strip (d.message.getD ""), timestamp := d.timestamp,
            message_id := s.privateMessageCounter + 1, status := "sent",
            file := sanitize_file_payload d.file }]) := by
    simp [private_message, hrec, hrecval, hmsg, hmsg', hself, hr0, hlookup]
  have hfresh : ∀ p ∈ s.privateMessages, p.1 ≠ s.privateMessageCounter + 1 := by
    intro p hp
    have := hids p hp
    omega
  refine ⟨heq, Nat.le_add_left 1 _, ?_, hfresh, ?_⟩
  · rw [heq]
    exact alistGet_append_fresh s.privateMessages (s.privateMessageCounter + 1)
      ⟨sid, rsid, "sent"⟩ hfresh
  · rw [heq]
    intro p hp
    rcases List.mem_append.mp hp with hm | hs
    · have := hids p hm
      simp only []
      omega
    · simp at hs
      rw [hs]

/-- Claim C4, evaluated: "alice" (sid `s1`) sends "hi" with a timestamp to
online "bob" (sid `s2`) on a fresh server; id 1 is allocated, the record is
`sent`, and exactly the delivered/sent event pair is emitted. -/
theorem c4_private_message_success_witness :
    private_message ⟨[("s1", "alice"), ("s2", "bob")], [], 0, []⟩ "s1"
        ⟨some "bob", some "hi", none, some 5⟩ =
      ({ clients := [("s1", "alice"), ("s2", "bob")], publicHistory := [],
         privateMessageCounter := 0 + 1,
         privateMessages := [] ++ [(0 + 1, ⟨"s1", "s2", "sent"⟩)] },
       [OutEvent.privateMessageReceived "s2"
          { sender := alistGetD [("s1", "alice"), ("s2", "bob")] "s1" "Unknown",
            recipient := "bob", message := py_strip ((some "hi").getD ""),
            timestamp := some 5, message_id := 0 + 1, status := "delivered",
            file := sanitize_file_payload none },
        OutEvent.privateMessageSent "s1"
          { sender := alistGetD [("s1", "alice"), ("s2", "bob")] "s1" "Unknown",
            recipient := "bob", message := py_strip ((some "hi").getD ""),
            timestamp := some 5, message_id := 0 + 1, status := "sent",
            file := sanitize_file_payload none }]) ∧
    1 ≤ 0 + 1 ∧
    alistGet (private_message ⟨[("s1", "alice"), ("s2", "bob")], [], 0, []⟩ "s1"
        ⟨some "bob", some "hi", none, some 5⟩).1.privateMessages (0 + 1)
      = some ⟨"s1", "s2", "sent"⟩ ∧
    (∀ p ∈ ([] : List (Nat × PMRecord)), p.1 ≠ 0 + 1) ∧
    (∀ p ∈ (private_message ⟨[("s1", "alice"), ("s2", "bob")], [], 0, []⟩ "s1"
        ⟨some "bob", some "hi", none, some 5⟩).1.privateMessages,
      p.1 ≤ (private_message ⟨[("s1", "alice"), ("s2", "bob")], [], 0, []⟩ "s1"
        ⟨some "bob", some "hi", none, some 5⟩).1.privateMessageCounter) :=
  c4_private_message_success ⟨[("s1", "alice"), ("s2", "bob")], [], 0, []⟩ "s1"
    ⟨some "bob", some "hi", none, some 5⟩ "bob" "s2"
    rfl (by decide) (by decide) (by decide) (by decide) (by simp)

/-! ## Claim C9 — outbound-queue flush order -/

/-- Folding `_emit_when_connected` over any action list while disconnected
appends everything to the buffer in emission order and sends nothing. -/
theorem emitAll_disconnected_aux :
    ∀ (actions : List (String × EvData)) (s : ClientState)
      (sent : List (String × EvData)), s.connected = false →
      actions.foldl
          (fun acc a =>
            ((emit_when_connected acc.1 a.1 a.2).1,
             acc.2 ++ (emit_when_connected acc.1 a.1 a.2).2))
          (s, sent)
        = ({ s with pending_events := s.pending_events ++ actions }, sent) := by
  intro actions
  induction actions with
  | nil =>
    intro s sent hs
    simp
  | cons a as ih =>
    intro s sent hs
    have hstep : emit_when_connected s a.1 a.2 =
        ({ s with pending_events := s.pending_events ++ [a] }, []) := by
      simp [emit_when_connected, hs]
    simp only [List.foldl_cons, hstep, List.append_nil]
    rw [ih ({ s with pending_events := s.pending_events ++ [a] }) sent hs]
    simp

/-- Claim C9.  While the client is not connected, emitted actions are
buffered in order and nothing is sent; on the transition to connected the
buffer is flushed with a synthetic `register` action first exactly when a
desired username is pending and no `register` action is already queued, all
buffered actions follow in their original emission order, and the buffer is
empty afterwards. -/
theorem c9_queue_flush_order (s : ClientState) (actions : List (String × EvData))
    (hconn : s.connected = false) :
    (emitAll s actions).2 = [] ∧
    (emitAll s actions).1.pending_events = s.pending_events ++ actions ∧
    (on_connect (emitAll s actions).1).1.pending_events = [] ∧
    (on_connect (emitAll s actions).1).1.connected = true ∧
    (on_connect (emitAll s actions).1).2 =
      (if s.desired_username ≠ "" ∧
          ¬((s.pending_events ++ actions).any (fun e => e.1 == "register")) = true
       then [("register", EvData.registerData s.desired_username)] else []) ++
        (s.pending_events ++ actions) := by
  have he : emitAll s actions
      = ({ s with pending_events := s.pending_events ++ actions }, []) := by
    unfold emitAll
    exact emitAll_disconnected_aux actions s [] hconn
  rw [he]
  refine ⟨rfl, rfl, rfl, rfl, ?_⟩
  simp only [on_connect]
  split
  case isTrue hc => simp
  case isFalse hc => simp

/-- Claim C9, evaluated: two actions buffered while disconnected with a
pending desired username flush as register first, then the two actions in
order, leaving an empty buffer. -/
theorem c9_queue_flush_order_witness :
    (emitAll ⟨false, false, "alice", []⟩
        [("typing", EvData.plain 1), ("message", EvData.plain 2)]).2 = [] ∧
    (emitAll ⟨false, false, "alice", []⟩
        [("typing", EvData.plain 1), ("message", EvData.plain 2)]).1.pending_events
      = [] ++ [("typing", EvData.plain 1), ("message", EvData.plain 2)] ∧
    (on_connect (emitAll ⟨false, false, "alice", []⟩
        [("typing", EvData.plain 1), ("message", EvData.plain 2)]).1).1.pending_events = [] ∧
    (on_connect (emitAll ⟨false, false, "alice", []⟩
        [("typing", EvData.plain 1), ("message", EvData.plain 2)]).1).1.connected = true ∧
    (on_connect (emitAll ⟨false, false, "alice", []⟩
        [("typing", EvData.plain 1), ("message", EvData.plain 2)]).1).2 =
      (if ("alice" : String) ≠ "" ∧
          ¬((([] : List (String × EvData)) ++
              [("typing", EvData.plain 1), ("message", EvData.plain 2)]).any
                (fun e => e.1 == "register")) = true
       then [("register", EvData.registerData "alice")] else []) ++
        ([] ++ [("typing", EvData.plain 1), ("message", EvData.plain 2)]) :=
  c9_queue_flush_order ⟨false, false, "alice", []⟩
    [("typing", EvData.plain 1), ("message", EvData.plain 2)] rfl

/-! ## Claim C6 — bounded FIFO public history -/

/-- Folding accepted broadcasts through the history bound keeps exactly the
most recent `MAX_PUBLIC_HISTORY` entries, in arrival order. -/
theorem pushHistory_foldl :
    ∀ (ms : List BroadcastMsg) (h : List BroadcastMsg),
      h.length ≤ MAX_PUBLIC_HISTORY →
      ms.foldl pushHistory h
        = (h ++ ms).drop (h.length + ms.length - MAX_PUBLIC_HISTORY) := by
  intro ms
  induction ms with
  | nil =>
    intro h hh
    simp only [List.foldl_nil, List.append_nil, List.length_nil, Nat.add_zero]
    have h0 : h.length - MAX_PUBLIC_HISTORY = 0 := by omega
    rw [h0, List.drop_zero]
  | cons m ms' ih =>
    intro h hh
    by_cases hlt : h.length < MAX_PUBLIC_HISTORY
    · have hpush : pushHistory h m = h ++ [m] := by
        simp only [pushHistory]
        rw [if_neg]
        simp
        omega
      have hle : (h ++ [m]).length ≤ MAX_PUBLIC_HISTORY := by
        simp; omega
      rw [List.foldl_cons, hpush, ih (h ++ [m]) hle]
      have harith : (h ++ [m]).length + ms'.length - MAX_PUBLIC_HISTORY
          = h.length + (m :: ms').length - MAX_PUBLIC_HISTORY := by
        simp; omega
      rw [harith, List.append_assoc]
      simp
    · have hfull : h.length = MAX_PUBLIC_HISTORY := by omega
      have hpos : 0 < MAX_PUBLIC_HISTORY := by norm_num [MAX_PUBLIC_HISTORY]
      cases h with
      | nil => simp [MAX_PUBLIC_HISTORY] at hfull
      | cons hd ht =>
        have hpush : pushHistory (hd :: ht) m = ht ++ [m] := by
          simp only [pushHistory]
          rw [if_pos]
          · simp
          · simp at hfull ⊢
            omega
        have hle : (ht ++ [m]).length ≤ MAX_PUBLIC_HISTORY := by
          simp at hfull ⊢
          omega
        rw [List.foldl_cons, hpush, ih (ht ++ [m]) hle]
        have harith : (ht ++ [m]).length + ms'.length - MAX_PUBLIC_HISTORY
            = ms'.length := by
          simp at hfull ⊢
          omega
        have harith2 : (hd :: ht).length + (m :: ms').length - MAX_PUBLIC_HISTORY
            = ms'.length + 1 := by
          simp at hfull ⊢
          omega
        rw [harith, harith2]
        have hassoc : (ht ++ [m]) ++ ms' = ht ++ m :: ms' := by simp
        rw [hassoc]
        have : (hd :: ht) ++ m :: ms' = hd :: (ht ++ m :: ms') := by simp
        rw [this, List.drop_succ_cons]

/-- The `message` handler never touches the client registry, and a sequence
of accepted requests folds the corresponding broadcasts into the history. -/
theorem runMessages_spec :
    ∀ (reqs : List (String × MsgRequest)) (s : ServerState),
      (∀ p ∈ reqs,
        ¬(py_strip (p.2.message.getD "") = "" ∧ sanitize_file_payload p.2.file = none)) →
      (runMessages s reqs).clients = s.clients ∧
      (runMessages s reqs).publicHistory
        = (reqs.map (fun p => mkBroadcast s.clients p.1 p.2)).foldl pushHistory
            s.publicHistory := by
  intro reqs
  induction reqs with
  | nil => intro s _; exact ⟨rfl, rfl⟩
  | cons p reqs' ih =>
    intro s hacc
    have hstep := message_accepted_eq s p.1 p.2 (hacc p (by simp))
    have hrun : runMessages s (p :: reqs')
        = runMessages (message s p.1 p.2).1 reqs' := by
      simp [runMessages]
    rw [hrun, hstep]
    have htail := ih { s with publicHistory := pushHistory s.publicHistory (mkBroadcast s.clients p.1 p.2) } (fun q hq => hacc q (by simp [hq]))
    refine ⟨htail.1, ?_⟩
    rw [htail.2]
    simp

/-- Claim C6.  Starting from an empty history, after any sequence of `N`
accepted public messages the history holds exactly `min N 200` entries: the
most recent ones in arrival order, the oldest `N - 200` evicted, the bound
never exceeded, and `request_history` serves exactly that snapshot. -/
theorem c6_history_is_bounded_fifo (clients : List (String × String))
    (reqs : List (String × MsgRequest)) (sid : String)
    (hacc : ∀ p ∈ reqs,
      ¬(py_strip (p.2.message.getD "") = "" ∧ sanitize_file_payload p.2.file = none)) :
    (runMessages ⟨clients, [], 0, []⟩ reqs).publicHistory
      = (reqs.map (fun p => mkBroadcast clients p.1 p.2)).drop
          ((reqs.map (fun p => mkBroadcast clients p.1 p.2)).length - MAX_PUBLIC_HISTORY) ∧
    (runMessages ⟨clients, [], 0, []⟩ reqs).publicHistory.length
      = min (reqs.map (fun p => mkBroadcast clients p.1 p.2)).length MAX_PUBLIC_HISTORY ∧
    (runMessages ⟨clients, [], 0, []⟩ reqs).publicHistory.length ≤ MAX_PUBLIC_HISTORY ∧
    ((reqs.map (fun p => mkBroadcast clients p.1 p.2)).length ≤ MAX_PUBLIC_HISTORY →
      (runMessages ⟨clients, [], 0, []⟩ reqs).publicHistory
        = reqs.map (fun p => mkBroadcast clients p.1 p.2)) ∧
    (request_history (runMessages ⟨clients, [], 0, []⟩ reqs) sid).2
      = [OutEvent.chatHistory sid (runMessages ⟨clients, [], 0, []⟩ reqs).publicHistory] := by
  have hrun := (runMessages_spec reqs ⟨clients, [], 0, []⟩ hacc).2
  have hfold := pushHistory_foldl
    (reqs.map (fun p => mkBroadcast clients p.1 p.2)) []
    (by simp)
  simp only [List.nil_append, List.length_nil, Nat.zero_add] at hfold
  have hhist : (runMessages ⟨clients, [], 0, []⟩ reqs).publicHistory
      = (reqs.map (fun p => mkBroadcast clients p.1 p.2)).drop
          ((reqs.map (fun p => mkBroadcast clients p.1 p.2)).length - MAX_PUBLIC_HISTORY) := by
    rw [hrun]
    exact hfold
  refine ⟨hhist, ?_, ?_, ?_, rfl⟩
  · rw [hhist, List.length_drop]
    omega
  · rw [hhist, List.length_drop]
    omega
  · intro hle
    rw [hhist]
    have : (reqs.map (fun p => mkBroadcast clients p.1 p.2)).length
        - MAX_PUBLIC_HISTORY = 0 := by omega
    rw [this, List.drop_zero]

/-- Claim C6, evaluated: two accepted messages from a registered and an
unregistered sender leave a two-entry history in arrival order, served by
`request_history`. -/
theorem c6_history_is_bounded_fifo_witness :
    (runMessages ⟨[("s1", "alice")], [], 0, []⟩
        [("s1", ⟨some "one", none, none⟩), ("s2", ⟨some "two", none, none⟩)]).publicHistory
      = ([("s1", (⟨some "one", none, none⟩ : MsgRequest)),
          ("s2", ⟨some "two", none, none⟩)].map
            (fun p => mkBroadcast [("s1", "alice")] p.1 p.2)).drop
          (([("s1", (⟨some "one", none, none⟩ : MsgRequest)),
             ("s2", ⟨some "two", none, none⟩)].map
               (fun p => mkBroadcast [("s1", "alice")] p.1 p.2)).length - MAX_PUBLIC_HISTORY) ∧
    (runMessages ⟨[("s1", "alice")], [], 0, []⟩
        [("s1", ⟨some "one", none, none⟩), ("s2", ⟨some "two", none, none⟩)]).publicHistory.length
      = min ([("s1", (⟨some "one", none, none⟩ : MsgRequest)),
              ("s2", ⟨some "two", none, none⟩)].map
                (fun p => mkBroadcast [("s1", "alice")] p.1 p.2)).length MAX_PUBLIC_HISTORY ∧
    (runMessages ⟨[("s1", "alice")], [], 0, []⟩
        [("s1", ⟨some "one", none, none⟩), ("s2", ⟨some "two", none, none⟩)]).publicHistory.length
      ≤ MAX_PUBLIC_HISTORY ∧
    (([("s1", (⟨some "one", none, none⟩ : MsgRequest)),
       ("s2", ⟨some "two", none, none⟩)].map
         (fun p => mkBroadcast [("s1", "alice")] p.1 p.2)).length ≤ MAX_PUBLIC_HISTORY →
      (runMessages ⟨[("s1", "alice")], [], 0, []⟩
          [("s1", ⟨some "one", none, none⟩), ("s2", ⟨some "two", none, none⟩)]).publicHistory
        = [("s1", (⟨some "one", none, none⟩ : MsgRequest)),
           ("s2", ⟨some "two", none, none⟩)].map
             (fun p => mkBroadcast [("s1", "alice")] p.1 p.2)) ∧
    (request_history (runMessages ⟨[("s1", "alice")], [], 0, []⟩
        [("s1", ⟨some "one", none, none⟩), ("s2", ⟨some "two", none, none⟩)]) "s9").2
      = [OutEvent.chatHistory "s9"
          (runMessages ⟨[("s1", "alice")], [], 0, []⟩
            [("s1", ⟨some "one", none, none⟩), ("s2", ⟨some "two", none, none⟩)]).publicHistory] :=
  c6_history_is_bounded_fifo [("s1", "alice")]
    [("s1", ⟨some "one", none, none⟩), ("s2", ⟨some "two", none, none⟩)] "s9"
    (by decide)

/-! ## Claim C7 — encrypted chunked round trip -/

/-- Concatenating the chunks in index order restores the ciphertext, for any
positive chunk size. -/
theorem chunk_file_flatten (c : Nat) (hc : 1 ≤ c) (data : Bytes) :
    (chunk_file c data).flatten = data := by
  rw [chunk_file]
  split
  case isTrue h =>
    have hd : data = [] := by
      rcases h with h | h
      · omega
      · exact h
    simp [hd]
  case isFalse h =>
    rcases not_or.mp h with ⟨h1, h2⟩
    have ih := chunk_file_flatten c hc (data.drop c)
    simp [ih]
termination_by data.length
decreasing_by
  have hd : 0 < data.length := List.length_pos.mpr h2
  simpa [List.length_drop] using Nat.sub_lt hd (Nat.pos_of_ne_zero h1)

theorem getLast?_replicate_succ (x : Nat) :
    ∀ n : Nat, (List.replicate (n + 1) x).getLast? = some x := by
  intro n
  induction n with
  | zero => rfl
  | succ k ih =>
    rw [List.replicate_succ, List.replicate_succ, List.getLast?_cons_cons,
      ← List.replicate_succ]
    exact ih

/-- PKCS7 unpadding inverts PKCS7 padding at the 16-byte block size. -/
theorem unpad_data_pad_data (d : Bytes) : unpad_data (pad_data d 16) = d := by
  have hm : d.length % 16 < 16 := Nat.mod_lt _ (by norm_num)
  have hp1 : 1 ≤ 16 - d.length % 16 := by omega
  obtain ⟨q, hq⟩ : ∃ q, 16 - d.length % 16 = q + 1 :=
    ⟨16 - d.length % 16 - 1, by omega⟩
  have hlast : (d ++ List.replicate (16 - d.length % 16) (16 - d.length % 16)).getLast?
      = some (16 - d.length % 16) := by
    rw [List.getLast?_append, hq, getLast?_replicate_succ]
    rfl
  simp only [pad_data, unpad_data, hlast, Option.getD_some]
  rw [if_neg (by omega)]
  have hlen : (d ++ List.replicate (16 - d.length % 16) (16 - d.length % 16)).length
      - (16 - d.length % 16) = d.length := by
    simp
  rw [hlen]
  exact List.take_left d _

/-- Claim C7.  For any payload with '0 < length ≤ 5 MiB', any chunk size
`C ≥ 1`, and any faithful external primitives (AES decryption inverts AES
encryption under the same key and IV, RSA unwrap inverts RSA wrap),
preparing a file for sending and reassembling its chunk list reproduces the
original bytes and the recomputed digest, without error. -/
theorem c7_chunk_round_trip (p : CryptoPrims) (chunk_size : Nat)
    (aes_key iv : Bytes) (transfer_id : String) (file_data : Bytes)
    (filename : String)
    (hcs : 1 ≤ chunk_size)
    (hlen : 0 < file_data.length) (hbound : file_data.length ≤ MAX_FILE_BYTES)
    (haes : ∀ x, p.aesDec aes_key iv (p.aesEnc aes_key iv x) = x)
    (hrsa : p.rsaUnwrapKey (p.rsaWrapKey aes_key) = aes_key) :
    reassemble_file p
      (prepare_file_for_sending p chunk_size aes_key iv transfer_id file_data filename).chunks
      (prepare_file_for_sending p chunk_size aes_key iv transfer_id file_data filename).encrypted_aes_key
      (prepare_file_for_sending p chunk_size aes_key iv transfer_id file_data filename).iv
      (prepare_file_for_sending p chunk_size aes_key iv transfer_id file_data filename).metadata.file_hash
    = Except.ok (file_data, p.sha256_hexdigest file_data) := by
  simp only [prepare_file_for_sending, reassemble_file, create_chunk_metadata,
    encrypt_data, decrypt_data, hrsa, chunk_file_flatten chunk_size hcs, haes,
    unpad_data_pad_data]
  simp

/-- Claim C7, evaluated with the identity primitives on a one-byte payload
and single-byte chunks. -/
theorem c7_chunk_round_trip_witness :
    reassemble_file idPrims
      (prepare_file_for_sending idPrims 1 [7] [9] "t" [1] "f").chunks
      (prepare_file_for_sending idPrims 1 [7] [9] "t" [1] "f").encrypted_aes_key
      (prepare_file_for_sending idPrims 1 [7] [9] "t" [1] "f").iv
      (prepare_file_for_sending idPrims 1 [7] [9] "t" [1] "f").metadata.file_hash
    = Except.ok ([1], idPrims.sha256_hexdigest [1]) :=
  c7_chunk_round_trip idPrims 1 [7] [9] "t" [1] "f"
    (by decide) (by decide) (by decide) (fun x => rfl) rfl

/-! ## Claim C8 — tamper detection on reassembly -/

/-- Claim C8.  Reassembling any (possibly tampered) chunk list against a
prepared transfer is fail-closed: it can only succeed with exactly the
original plaintext and digest (given that the digest function is
collision-free, the idealization of SHA-256); whenever the tampering
perturbs the recomputed digest — which a bit flip does, barring a SHA-256
collision — it fails with the `IntegrityFailure` error; and the error value
is the fixed source message, never the decrypted plaintext. -/
theorem c8_tampered_reassembly_fails_closed (p : CryptoPrims) (chunk_size : Nat)
    (aes_key iv : Bytes) (transfer_id : String) (file_data : Bytes)
    (filename : String) (tampered : List Bytes)
    (hrsa : p.rsaUnwrapKey (p.rsaWrapKey aes_key) = aes_key)
    (hinj : Function.Injective p.sha256_hexdigest) :
    (∀ out dig,
      reassemble_file p tampered
          (prepare_file_for_sending p chunk_size aes_key iv transfer_id file_data filename).encrypted_aes_key
          (prepare_file_for_sending p chunk_size aes_key iv transfer_id file_data filename).iv
          (prepare_file_for_sending p chunk_size aes_key iv transfer_id file_data filename).metadata.file_hash
        = Except.ok (out, dig) →
      out = file_data ∧ dig = p.sha256_hexdigest file_data) ∧
    (p.sha256_hexdigest (decrypt_data p tampered.flatten aes_key iv)
        ≠ p.sha256_hexdigest file_data →
      reassemble_file p tampered
          (prepare_file_for_sending p chunk_size aes_key iv transfer_id file_data filename).encrypted_aes_key
          (prepare_file_for_sending p chunk_size aes_key iv transfer_id file_data filename).iv
          (prepare_file_for_sending p chunk_size aes_key iv transfer_id file_data filename).metadata.file_hash
        = Except.error "File hash verification failed - file may be corrupted") ∧
    (∀ m,
      reassemble_file p tampered
          (prepare_file_for_sending p chunk_size aes_key iv transfer_id file_data filename).encrypted_aes_key
          (prepare_file_for_sending p chunk_size aes_key iv transfer_id file_data filename).iv
          (prepare_file_for_sending p chunk_size aes_key iv transfer_id file_data filename).metadata.file_hash
        = Except.error m →
      m = "File hash verification failed - file may be corrupted") := by
  simp only [reassemble_file, prepare_file_for_sending, create_chunk_metadata, hrsa]
  refine ⟨?_, ?_, ?_⟩
  · intro out dig hok
    split at hok
    case isTrue hd =>
      have hout : out = decrypt_data p tampered.flatten aes_key iv := by
        cases hok; rfl
      have hdig : dig = p.sha256_hexdigest (decrypt_data p tampered.flatten aes_key iv) := by
        cases hok; rfl
      have hde : decrypt_data p tampered.flatten aes_key iv = file_data := hinj hd
      exact ⟨hout.trans hde, by rw [hdig, hde]⟩
    case isFalse hd => exact absurd hok (by simp)
  · intro hne
    rw [if_neg hne]
  · intro m hm
    split at hm
    case isTrue hd => exact absurd hm (by simp)
    case isFalse hd =>
      cases hm
      rfl

/-- Claim C8, evaluated with the identity primitives: flipping the first
ciphertext byte of a prepared one-byte transfer makes reassembly fail with
the `IntegrityFailure` message. -/
theorem c8_tampered_reassembly_fails_closed_witness :
    reassemble_file idPrims [[2, 15, 15, 15, 15, 15, 15, 15, 15, 15, 15, 15, 15, 15, 15, 15]]
        (prepare_file_for_sending idPrims 16 [7] [9] "t" [1] "f").encrypted_aes_key
        (prepare_file_for_sending idPrims 16 [7] [9] "t" [1] "f").iv
        (prepare_file_for_sending idPrims 16 [7] [9] "t" [1] "f").metadata.file_hash
      = Except.error "File hash verification failed - file may be corrupted" :=
  (c8_tampered_reassembly_fails_closed idPrims 16 [7] [9] "t" [1] "f"
      [[2, 15, 15, 15, 15, 15, 15, 15, 15, 15, 15, 15, 15, 15, 15, 15]]
      rfl (fun a b hab => hab)).2.1 (by decide)

/-! ## Claim C5 — read-acknowledgement state machine -/

theorem acksFor_append (acks xs : List (String × Nat)) (mid : Nat) :
    acksFor (acks ++ xs) mid = acksFor acks mid ++ acksFor xs mid := by
  simp [acksFor, List.filter_append]

theorem ackStep_eq_of_none (sid : String) (tbl : List (Nat × PMRecord))
    (acks : List (String × Nat)) (i : Nat) (h : alistGet tbl i = none) :
    ackStep sid (tbl, acks) i = (tbl, acks) := by
  simp [ackStep, h]

theorem ackStep_eq_of_wrong_recipient (sid : String) (tbl : List (Nat × PMRecord))
    (acks : List (String × Nat)) (i : Nat) (meta : PMRecord)
    (h : alistGet tbl i = some meta) (hr : meta.recipient_sid ≠ sid) :
    ackStep sid (tbl, acks) i = (tbl, acks) := by
  simp [ackStep, h, hr]

theorem ackStep_eq_of_seen (sid : String) (tbl : List (Nat × PMRecord))
    (acks : List (String × Nat)) (i : Nat) (meta : PMRecord)
    (h : alistGet tbl i = some meta) (hs : meta.status = "seen") :
    ackStep sid (tbl, acks) i = (tbl, acks) := by
  by_cases hr : meta.recipient_sid = sid
  · simp [ackStep, h, hr, hs]
  · simp [ackStep, h, hr]

theorem ackStep_eq_of_transition (sid : String) (tbl : List (Nat × PMRecord))
    (acks : List (String × Nat)) (i : Nat) (meta : PMRecord)
    (h : alistGet tbl i = some meta) (hr : meta.recipient_sid = sid)
    (hs : meta.status ≠ "seen") :
    ackStep sid (tbl, acks) i =
      (alistSet tbl i { meta with status := "seen" },
       acks ++ [(meta.sender_sid, i)]) := by
  simp [ackStep, h, hr, hs]

/-- Acknowledging another id leaves a message's entry and its recorded
acknowledgements untouched. -/
theorem ackStep_preserves_other (sid : String) (tbl : List (Nat × PMRecord))
    (acks : List (String × Nat)) (i mid : Nat) (hne : i ≠ mid) :
    alistGet (ackStep sid (tbl, acks) i).1 mid = alistGet tbl mid ∧
    acksFor (ackStep sid (tbl, acks) i).2 mid = acksFor acks mid := by
  cases h : alistGet tbl i with
  | none => rw [ackStep_eq_of_none sid tbl acks i h]; exact ⟨rfl, rfl⟩
  | some meta =>
    by_cases hr : meta.recipient_sid = sid
    · by_cases hs : meta.status = "seen"
      · rw [ackStep_eq_of_seen sid tbl acks i meta h hs]; exact ⟨rfl, rfl⟩
      · rw [ackStep_eq_of_transition sid tbl acks i meta h hr hs]
        refine ⟨alistGet_alistSet_ne tbl i mid _ (Ne.symm hne), ?_⟩
        rw [acksFor_append]
        have : acksFor [(meta.sender_sid, i)] mid = [] := by
          simp [acksFor, hne]
        rw [this, List.append_nil]
    · rw [ackStep_eq_of_wrong_recipient sid tbl acks i meta h hr]; exact ⟨rfl, rfl⟩

/-- Per acknowledgement call, an absent id stays absent and records no
acknowledgement. -/
theorem ackFold_none (sid : String) (mid : Nat) :
    ∀ (ids : List Nat) (tbl : List (Nat × PMRecord)) (acks : List (String × Nat)),
      alistGet tbl mid = none →
      alistGet (ids.foldl (ackStep sid) (tbl, acks)).1 mid = none ∧
      acksFor (ids.foldl (ackStep sid) (tbl, acks)).2 mid = acksFor acks mid := by
  intro ids
  induction ids with
  | nil => intro tbl acks h; exact ⟨h, rfl⟩
  | cons i rest ih =>
    intro tbl acks h
    rw [List.foldl_cons]
    by_cases hi : i = mid
    · subst hi
      rw [ackStep_eq_of_none sid tbl acks i h]
      exact ih tbl acks h
    · have hstep := ackStep_preserves_other sid tbl acks i mid hi
      have hrec := ih (ackStep sid (tbl, acks) i).1 (ackStep sid (tbl, acks) i).2
        (by rw [hstep.1]; exact h)
      exact ⟨hrec.1, hrec.2.trans hstep.2⟩

/-- Per acknowledgement call, a stored record either stays exactly as it is
with no acknowledgement recorded, or — only when it was not yet seen and the
caller is its recipient — moves to `seen` with exactly one acknowledgement
recorded for its sender. -/
theorem ackFold_forward (sid : String) (mid : Nat) :
    ∀ (ids : List Nat) (tbl : List (Nat × PMRecord)) (acks : List (String × Nat))
      (rec : PMRecord), alistGet tbl mid = some rec →
      (alistGet (ids.foldl (ackStep sid) (tbl, acks)).1 mid = some rec ∧
        acksFor (ids.foldl (ackStep sid) (tbl, acks)).2 mid = acksFor acks mid) ∨
      (rec.status ≠ "seen" ∧ rec.recipient_sid = sid ∧
        alistGet (ids.foldl (ackStep sid) (tbl, acks)).1 mid
          = some { rec with status := "seen" } ∧
        acksFor (ids.foldl (ackStep sid) (tbl, acks)).2 mid
          = acksFor acks mid ++ [(rec.sender_sid, mid)]) := by
  intro ids
  induction ids with
  | nil => intro tbl acks rec h; exact Or.inl ⟨h, rfl⟩
  | cons i rest ih =>
    intro tbl acks rec h
    rw [List.foldl_cons]
    by_cases hi : i = mid
    · subst hi
      by_cases hr : rec.recipient_sid = sid
      · by_cases hs : rec.status = "seen"
        · rw [ackStep_eq_of_seen sid tbl acks i rec h hs]
          exact ih tbl acks rec h
        · rw [ackStep_eq_of_transition sid tbl acks i rec h hr hs]
          have hget2 : alistGet (alistSet tbl i { rec with status := "seen" }) i
              = some { rec with status := "seen" } :=
            alistGet_alistSet_self tbl i { rec with status := "seen" }
          rcases ih (alistSet tbl i { rec with status := "seen" })
              (acks ++ [(rec.sender_sid, i)]) { rec with status := "seen" } hget2 with
            hleft | hright
          · right
            refine ⟨hs, hr, hleft.1, ?_⟩
            rw [hleft.2, acksFor_append]
            congr 1
            simp [acksFor]
          · exact absurd rfl hright.1
      · rw [ackStep_eq_of_wrong_recipient sid tbl acks i rec h hr]
        exact ih tbl acks rec h
    · have hstep := ackStep_preserves_other sid tbl acks i mid hi
      have hrec := ih (ackStep sid (tbl, acks) i).1 (ackStep sid (tbl, acks) i).2 rec
        (by rw [hstep.1]; exact h)
      rcases hrec with hleft | hright
      · exact Or.inl ⟨hleft.1, hleft.2.trans hstep.2⟩
      · right
        refine ⟨hright.1, hright.2.1, hright.2.2.1, ?_⟩
        rw [hright.2.2.2, hstep.2]

/-- Per acknowledgement call, a not-yet-seen record whose recipient calls in
with its id among the acknowledged ones is guaranteed to move to `seen`, with
exactly one acknowledgement recorded. -/
theorem ackFold_transition (sid : String) (mid : Nat) :
    ∀ (ids : List Nat) (tbl : List (Nat × PMRecord)) (acks : List (String × Nat))
      (rec : PMRecord), alistGet tbl mid = some rec →
      rec.status ≠ "seen" → rec.recipient_sid = sid → mid ∈ ids →
      alistGet (ids.foldl (ackStep sid) (tbl, acks)).1 mid
        = some { rec with status := "seen" } ∧
      acksFor (ids.foldl (ackStep sid) (tbl, acks)).2 mid
        = acksFor acks mid ++ [(rec.sender_sid, mid)] := by
  intro ids
  induction ids with
  | nil => intro tbl acks rec _ _ _ hmem; exact absurd hmem (List.not_mem_nil mid)
  | cons i rest ih =>
    intro tbl acks rec h hs hr hmem
    rw [List.foldl_cons]
    by_cases hi : i = mid
    · subst hi
      rw [ackStep_eq_of_transition sid tbl acks i rec h hr hs]
      have hget2 : alistGet (alistSet tbl i { rec with status := "seen" }) i
          = some { rec with status := "seen" } :=
        alistGet_alistSet_self tbl i { rec with status := "seen" }
      rcases ackFold_forward sid i rest (alistSet tbl i { rec with status := "seen" })
          (acks ++ [(rec.sender_sid, i)]) { rec with status := "seen" } hget2 with
        hleft | hright
      · refine ⟨hleft.1, ?_⟩
        rw [hleft.2, acksFor_append]
        congr 1
        simp [acksFor]
      · exact absurd rfl hright.1
    · have hmem' : mid ∈ rest := by
        rcases List.mem_cons.mp hmem with he | hm
        · exact absurd he.symm hi
        · exact hm
      have hstep := ackStep_preserves_other sid tbl acks i mid hi
      have hrec := ih (ackStep sid (tbl, acks) i).1 (ackStep sid (tbl, acks) i).2 rec
        (by rw [hstep.1]; exact h) hs hr hmem'
      exact ⟨hrec.1, hrec.2.trans (by rw [hstep.2])⟩

/-- Acknowledging only ids whose records are already seen (or unknown)
changes nothing and records nothing. -/
theorem ackFold_id_of_all_seen (sid : String) :
    ∀ (ids : List Nat) (tbl : List (Nat × PMRecord)) (acks : List (String × Nat)),
      (∀ i ∈ ids, ∀ m, alistGet tbl i = some m → m.status = "seen") →
      ids.foldl (ackStep sid) (tbl, acks) = (tbl, acks) := by
  intro ids
  induction ids with
  | nil => intro tbl acks _; rfl
  | cons i rest ih =>
    intro tbl acks hall
    rw [List.foldl_cons]
    have hstep : ackStep sid (tbl, acks) i = (tbl, acks) := by
      cases hg : alistGet tbl i with
      | none => exact ackStep_eq_of_none sid tbl acks i hg
      | some m => exact ackStep_eq_of_seen sid tbl acks i m hg (hall i (by simp) m hg)
    rw [hstep]
    exact ih tbl acks (fun j hj => hall j (by simp [hj]))

/-- Emitting read-receipt events from the acknowledgement list commutes with
restricting both to one message id. -/
theorem receiptsFor_filterMap (acks : List (String × Nat)) (mid : Nat) :
    receiptsFor (acks.filterMap (fun a => if a.1 = "" then none
        else some (OutEvent.privateMessageRead a.1 a.2))) mid
      = (acksFor acks mid).filterMap (fun a => if a.1 = "" then none
        else some (OutEvent.privateMessageRead a.1 a.2)) := by
  induction acks with
  | nil => rfl
  | cons a t ih =>
    by_cases h1 : a.1 = ""
    · by_cases h2 : a.2 = mid
      · simp [receiptsFor, acksFor, List.filterMap_cons, List.filter_cons, h1, h2] at *
        exact ih
      · simp [receiptsFor, acksFor, List.filterMap_cons, List.filter_cons, h1, h2] at *
        exact ih
    · by_cases h2 : a.2 = mid
      · simp [receiptsFor, acksFor, List.filterMap_cons, List.filter_cons, h1, h2,
          isReadReceiptFor] at *
        exact ih
      · simp [receiptsFor, acksFor, List.filterMap_cons, List.filter_cons, h1, h2,
          isReadReceiptFor] at *
        exact ih

/-- `private_message_read` unfolded to its loop and emission phases. -/
theorem private_message_read_eq (s : ServerState) (sid : String) (ids : List Nat) :
    private_message_read s sid ids
      = ({ s with privateMessages := (ids.foldl (ackStep sid) (s.privateMessages, [])).1 },
         (ids.foldl (ackStep sid) (s.privateMessages, [])).2.filterMap
           (fun a => if a.1 = "" then none
            else some (OutEvent.privateMessageRead a.1 a.2))) := rfl

/-- One acknowledgement call never creates receipt capacity: the receipts it
emits for an id plus the id's remaining potential are bounded by the
potential before the call. -/
theorem read_call_potential (s : ServerState) (sid : String) (ids : List Nat) (mid : Nat) :
    countReceipts (private_message_read s sid ids).2 mid
      + seenPotential (private_message_read s sid ids).1 mid
    ≤ seenPotential s mid := by
  have hrcpt : countReceipts (private_message_read s sid ids).2 mid
      = ((acksFor (ids.foldl (ackStep sid) (s.privateMessages, [])).2 mid).filterMap
          (fun a => if a.1 = "" then none
           else some (OutEvent.privateMessageRead a.1 a.2))).length := by
    rw [countReceipts, private_message_read_eq]
    dsimp only
    rw [receiptsFor_filterMap]
  have hpotf : seenPotential (private_message_read s sid ids).1 mid
      = (if (alistGet (ids.foldl (ackStep sid) (s.privateMessages, [])).1 mid).map
            (fun r => r.status) = some "seen" then 0 else 1) := rfl
  cases hget : alistGet s.privateMessages mid with
  | none =>
    have hn := ackFold_none sid mid ids s.privateMessages [] hget
    have hz : acksFor (ids.foldl (ackStep sid) (s.privateMessages, [])).2 mid = [] := by
      rw [hn.2]; rfl
    have hc0 : countReceipts (private_message_read s sid ids).2 mid = 0 := by
      rw [hrcpt, hz]; rfl
    have hp1 : seenPotential (private_message_read s sid ids).1 mid = 1 := by
      rw [hpotf, hn.1]; rfl
    have hp2 : seenPotential s mid = 1 := by
      unfold seenPotential statusOf
      rw [hget]
      rfl
    omega
  | some rec =>
    rcases ackFold_forward sid mid ids s.privateMessages [] rec hget with hl | hr
    · have hz : acksFor (ids.foldl (ackStep sid) (s.privateMessages, [])).2 mid = [] := by
        rw [hl.2]; rfl
      have hc0 : countReceipts (private_message_read s sid ids).2 mid = 0 := by
        rw [hrcpt, hz]; rfl
      have hpeq : seenPotential (private_message_read s sid ids).1 mid
          = seenPotential s mid := by
        rw [hpotf, hl.1]
        unfold seenPotential statusOf
        rw [hget]
      omega
    · have hone : acksFor (ids.foldl (ackStep sid) (s.privateMessages, [])).2 mid
          = [(rec.sender_sid, mid)] := by
        rw [hr.2.2.2]; rfl
      have hc1 : countReceipts (private_message_read s sid ids).2 mid ≤ 1 := by
        rw [hrcpt, hone]
        by_cases hsnd : rec.sender_sid = ""
        · simp [hsnd]
        · simp [hsnd]
      have hp0 : seenPotential (private_message_read s sid ids).1 mid = 0 := by
        rw [hpotf, hr.2.2.1]
        rfl
      have hp1 : seenPotential s mid = 1 := by
        unfold seenPotential statusOf
        rw [hget]
        rw [if_neg]
        intro hc
        simp only [Option.map_some'] at hc
        exact hr.1 (Option.some.inj hc)
      omega

/-- Shifting the accumulated-event argument out of the `runAcks` fold. -/
theorem runAcks_shift :
    ∀ (calls : List (String × List Nat)) (s : ServerState) (evs : List OutEvent),
      calls.foldl (fun acc c => ((private_message_read acc.1 c.1 c.2).1,
          acc.2 ++ (private_message_read acc.1 c.1 c.2).2)) (s, evs)
        = ((runAcks s calls).1, evs ++ (runAcks s calls).2) := by
  intro calls
  induction calls with
  | nil => intro s evs; simp [runAcks]
  | cons c cs ih =>
    intro s evs
    rw [List.foldl_cons]
    rw [ih (private_message_read s c.1 c.2).1 (evs ++ (private_message_read s c.1 c.2).2)]
    have hc : runAcks s (c :: cs)
        = ((runAcks (private_message_read s c.1 c.2).1 cs).1,
           (private_message_read s c.1 c.2).2
             ++ (runAcks (private_message_read s c.1 c.2).1 cs).2) := by
      rw [runAcks, List.foldl_cons]
      rw [ih (private_message_read s c.1 c.2).1 ([] ++ (private_message_read s c.1 c.2).2)]
      simp [runAcks]
    rw [hc]
    simp

/-- Unrolling one acknowledgement call of `runAcks`. -/
theorem runAcks_cons (s : ServerState) (c : String × List Nat)
    (cs : List (String × List Nat)) :
    runAcks s (c :: cs)
      = ((runAcks (private_message_read s c.1 c.2).1 cs).1,
         (private_message_read s c.1 c.2).2
           ++ (runAcks (private_message_read s c.1 c.2).1 cs).2) := by
  rw [runAcks, List.foldl_cons]
  rw [runAcks_shift cs (private_message_read s c.1 c.2).1
    ([] ++ (private_message_read s c.1 c.2).2)]
  simp [runAcks]

theorem countReceipts_append (evs1 evs2 : List OutEvent) (mid : Nat) :
    countReceipts (evs1 ++ evs2) mid = countReceipts evs1 mid + countReceipts evs2 mid := by
  simp [countReceipts, receiptsFor, List.filter_append]

/-- Over any sequence of acknowledgement calls, the receipts emitted for an
id plus its remaining potential are bounded by its initial potential. -/
theorem runAcks_potential (mid : Nat) :
    ∀ (calls : List (String × List Nat)) (s : ServerState),
      countReceipts (runAcks s calls).2 mid + seenPotential (runAcks s calls).1 mid
        ≤ seenPotential s mid := by
  intro calls
  induction calls with
  | nil =>
    intro s
    simp [runAcks, countReceipts, receiptsFor]
  | cons c cs ih =>
    intro s
    rw [runAcks_cons]
    dsimp only
    rw [countReceipts_append]
    have h1 := read_call_potential s c.1 c.2 mid
    have h2 := ih (private_message_read s c.1 c.2).1
    omega

/-- Claim C5.  For any stored private message: its status can only move
forward to `seen`, and only under acknowledgement by the stored recipient;
an already-seen record is left untouched and emits nothing; a valid
acknowledgement moves it to `seen` and emits exactly one read receipt, to
the stored sender; a call acknowledging only seen ids is observably a no-op;
and over any sequence of acknowledgement calls at most one receipt is ever
emitted for the id. -/
theorem c5_read_ack_state_machine
    (s : ServerState) (sid : String) (ids : List Nat) (mid : Nat) (rec : PMRecord)
    (h : alistGet s.privateMessages mid = some rec) :
    (∃ rec', alistGet (private_message_read s sid ids).1.privateMessages mid = some rec' ∧
      (rec' = rec ∨ (rec.status ≠ "seen" ∧ rec.recipient_sid = sid ∧
        rec' = { rec with status := "seen" }))) ∧
    (rec.status = "seen" →
      alistGet (private_message_read s sid ids).1.privateMessages mid = some rec ∧
      receiptsFor (private_message_read s sid ids).2 mid = []) ∧
    (mid ∈ ids → rec.recipient_sid = sid → rec.status ≠ "seen" → rec.sender_sid ≠ "" →
      receiptsFor (private_message_read s sid ids).2 mid
        = [OutEvent.privateMessageRead rec.sender_sid mid] ∧
      statusOf (private_message_read s sid ids).1 mid = some "seen") ∧
    ((∀ i ∈ ids, ∀ m, alistGet s.privateMessages i = some m → m.status = "seen") →
      private_message_read s sid ids = (s, [])) ∧
    (∀ calls : List (String × List Nat), countReceipts (runAcks s calls).2 mid ≤ 1) := by
  have hrcpt : receiptsFor (private_message_read s sid ids).2 mid
      = (acksFor (ids.foldl (ackStep sid) (s.privateMessages, [])).2 mid).filterMap
          (fun a => if a.1 = "" then none
           else some (OutEvent.privateMessageRead a.1 a.2)) := by
    rw [private_message_read_eq]
    exact receiptsFor_filterMap _ mid
  refine ⟨?_, ?_, ?_, ?_, ?_⟩
  · rcases ackFold_forward sid mid ids s.privateMessages [] rec h with hl | hr
    · exact ⟨rec, by rw [private_message_read_eq]; exact hl.1, Or.inl rfl⟩
    · exact ⟨{ rec with status := "seen" },
        by rw [private_message_read_eq]; exact hr.2.2.1,
        Or.inr ⟨hr.1, hr.2.1, rfl⟩⟩
  · intro hseen
    rcases ackFold_forward sid mid ids s.privateMessages [] rec h with hl | hr
    · refine ⟨by rw [private_message_read_eq]; exact hl.1, ?_⟩
      rw [hrcpt]
      have hz : acksFor (ids.foldl (ackStep sid) (s.privateMessages, [])).2 mid = [] := by
        rw [hl.2]; rfl
      rw [hz]; rfl
    · exact absurd hseen hr.1
  · intro hmem hr hs hsnd
    have ht := ackFold_transition sid mid ids s.privateMessages [] rec h hs hr hmem
    constructor
    · rw [hrcpt]
      have hone : acksFor (ids.foldl (ackStep sid) (s.privateMessages, [])).2 mid
          = [(rec.sender_sid, mid)] := by
        rw [ht.2]; rfl
      rw [hone]
      simp [hsnd]
    · rw [private_message_read_eq]
      simp [statusOf, ht.1]
  · intro hall
    rw [private_message_read_eq, ackFold_id_of_all_seen sid ids s.privateMessages [] hall]
    rfl
  · intro calls
    have hb := runAcks_potential mid calls s
    have hle : seenPotential s mid ≤ 1 := by
      unfold seenPotential
      split <;> omega
    omega

/-- Claim C5, evaluated: on a server holding message 1 (`sent`, from sid
`s1` to sid `s2`), recipient `s2` acknowledging `[1]` yields exactly one
receipt to `s1` and moves the record to `seen`. -/
theorem c5_read_ack_state_machine_witness :
    receiptsFor (private_message_read
        ⟨[("s1", "alice"), ("s2", "bob")], [], 1, [(1, ⟨"s1", "s2", "sent"⟩)]⟩
        "s2" [1]).2 1
      = [OutEvent.privateMessageRead "s1" 1] ∧
    statusOf (private_message_read
        ⟨[("s1", "alice"), ("s2", "bob")], [], 1, [(1, ⟨"s1", "s2", "sent"⟩)]⟩
        "s2" [1]).1 1 = some "seen" :=
  (c5_read_ack_state_machine
      ⟨[("s1", "alice"), ("s2", "bob")], [], 1, [(1, ⟨"s1", "s2", "sent"⟩)]⟩
      "s2" [1] 1 ⟨"s1", "s2", "sent"⟩ (by decide)).2.2.1
    (by decide) (by decide) (by decide) (by decide)

end AuroraChat
